import Mathlib

/-!
Verification of the skeinrs repository (spigot streams, dual-cursor
streaming/snapshot model, gesture-driven MIDI player).

Machine integers are modelled as `Nat` (digits are `u8` values `0..base`,
positions are `usize`, tick counts are `u32`; the `u64` arithmetic in
`ticks_to_ms` cannot overflow for `u32` inputs, so plain `Nat` is exact).
Fallible operations (`Option` returns in Rust, and Rust panics) are
modelled with `Option`.
-/

namespace Skeinrs

/-
════════════════════════════════════════════════════════════════════════
Dual-stream core.

The `dual_spigot` crate's library (`SpigotConfig`, `Cursor`, `DualStream`)
is not under `src/` — only its callers (`dual_spigot/src/main.rs`,
`demo.rs`, `leap_spigot`, `spigot_midi`) are.  The definitions below are
therefore modelled from the spec (§3, §4.1).
════════════════════════════════════════════════════════════════════════
-/

/-- Modelled from the spec: missing `dual_spigot` library.  A
`Configuration` is "(constant identifier, base ∈ [2,36]) — pure,
immutable, used to instantiate fresh Digit Sources deterministically".
The digit source it determines is "sequential-only, unlimited length,
deterministic for a given configuration"; we abstract the constant
identifier and its generation algorithm (out of scope in the spec) into
the deterministic digit sequence `digitAt` (`none` models the defensive
stream-exhaustion case of §7(c)). -/
structure SpigotConfig where
  name : String
  base : Nat
  digitAt : Nat → Option Nat

/-- Modelled from the spec: missing `dual_spigot` library.  "Cursor:
{ configuration, position: unsigned integer, source-internal state }.
Invariant: position equals the count of digits ever emitted by this
cursor" — with the source abstracted as a deterministic digit sequence,
the source-internal state is determined by configuration + position. -/
structure Cursor where
  config : SpigotConfig
  position : Nat

/-- Modelled from the spec: "`next()` → one digit, advances position
by 1" (position advances only when a digit is actually emitted, per the
position invariant in §3). -/
def Cursor.next (c : Cursor) : Option Nat × Cursor :=
  match c.config.digitAt c.position with
  | some d => (some d, { c with position := c.position + 1 })
  | none => (none, c)

/-- Modelled from the spec: "`drop(n)` → advance position by n without
retaining digits". -/
def Cursor.drop (c : Cursor) (n : Nat) : Cursor :=
  { c with position := c.position + n }

/-- Modelled from the spec: "`take(n)` → ordered sequence of n digits,
advances position by n" (stopping early on the defensive
stream-exhaustion case). -/
def Cursor.take : Cursor → Nat → List Nat × Cursor
  | c, 0 => ([], c)
  | c, n + 1 =>
    match c.config.digitAt c.position with
    | none => ([], c)
    | some d =>
      let r := Cursor.take { c with position := c.position + 1 } n
      (d :: r.1, r.2)

/-- Modelled from the spec: the Snippet Store is "a mapping from snapshot
name to a captured sequence of paired digits"; "re-depositing under an
existing name overwrites" and `snippet_keys()` "lists all stored names in
insertion order", so it is kept as an insertion-ordered association
list. -/
def storePut (s : List (String × List (Nat × Nat))) (name : String)
    (v : List (Nat × Nat)) : List (String × List (Nat × Nat)) :=
  if s.any (fun e => e.1 = name) then
    s.map (fun e => if e.1 = name then (name, v) else e)
  else
    s ++ [(name, v)]

/-- Modelled from the spec: "Dual Stream: { left: Cursor, right: Cursor,
snippet store }". -/
structure DualStream where
  left : Cursor
  right : Cursor
  store : List (String × List (Nat × Nat))

/-- Position of the live Left cursor (`left_pos()`). -/
def DualStream.left_pos (ds : DualStream) : Nat := ds.left.position

/-- Position of the live Right cursor (`right_pos()`). -/
def DualStream.right_pos (ds : DualStream) : Nat := ds.right.position

/-- Modelled from the spec: "`twist()` → exchanges the Left and Right
cursors as whole units (configuration + position + internal state)". -/
def DualStream.twist (ds : DualStream) : DualStream :=
  { ds with left := ds.right, right := ds.left }

/-- Modelled from the spec: "`zip_next()` → one pair, advances both sides
by 1"; per §7(c) exhaustion of either side is a graceful stop (`none`,
neither side advances, keeping the "zip-style operations advance both by
the same count per call" invariant of §3). -/
def DualStream.zip_next (ds : DualStream) : Option ((Nat × Nat) × DualStream) :=
  match ds.left.config.digitAt ds.left.position,
        ds.right.config.digitAt ds.right.position with
  | some l, some r =>
    some ((l, r),
      { ds with
        left := { ds.left with position := ds.left.position + 1 },
        right := { ds.right with position := ds.right.position + 1 } })
  | _, _ => none

/-- Modelled from the spec: "`snip(name, from, to)` (requires from ≤ to)
→ for each side, instantiate a fresh cursor from that side's current
configuration, `drop(from)`, `take(to-from)`; zip the two resulting
sequences into pairs; store under `name`; does not read or mutate the
live cursors". -/
def DualStream.snip (ds : DualStream) (name : String) (fromPos toPos : Nat) :
    DualStream :=
  let lFresh := (Cursor.mk ds.left.config 0).drop fromPos
  let rFresh := (Cursor.mk ds.right.config 0).drop fromPos
  let lv := (lFresh.take (toPos - fromPos)).1
  let rv := (rFresh.take (toPos - fromPos)).1
  { ds with store := storePut ds.store name (lv.zip rv) }

/-- Modelled from the spec: "`get_snippet(name)` returns the stored
sequence or a not-found signal". -/
def DualStream.get_snippet (ds : DualStream) (name : String) :
    Option (List (Nat × Nat)) :=
  (ds.store.find? (fun e => e.1 = name)).map (fun e => e.2)

/-
════════════════════════════════════════════════════════════════════════
leap_spigot/src/player.rs — ticks_to_ms
════════════════════════════════════════════════════════════════════════
-/

/-- `ticks_to_ms` from `leap_spigot/src/player.rs`:
`ms_per_beat = 60_000 / bpm.max(1)`;
result `= (ticks * ms_per_beat / tpq.max(1)).max(50)`. -/
def ticks_to_ms (ticks tpq bpm : Nat) : Nat :=
  let ms_per_beat := 60000 / max bpm 1
  max (ticks * ms_per_beat / max tpq 1) 50

/-
════════════════════════════════════════════════════════════════════════
spigot_midi/src/lib.rs — write_vlq
════════════════════════════════════════════════════════════════════════
-/

/-- Loop of `write_vlq` (`spigot_midi/src/lib.rs`):
`while value > 0 { i -= 1; bytes[i] = (value & 0x7F) | 0x80; value >>= 7 }`
over the fixed 4-byte buffer, then the final `bytes[i..]` slice.
When `i` is already `0`, the `i -= 1` underflows `usize` and the code
panics (debug: subtract overflow; release: index out of bounds) —
modelled as `none`. -/
def vlqGo : Nat → Nat → List Nat → Option (List Nat)
  | value, i, bytes =>
    if value = 0 then some (bytes.drop i)
    else
      match i with
      | 0 => none
      | i' + 1 => vlqGo (value / 128) i' (bytes.set i' (value % 128 + 128))

/-- `write_vlq(buf, value)` from `spigot_midi/src/lib.rs`: fills the
4-byte scratch buffer from the least-significant end
(`bytes[3] = value & 0x7F; value >>= 7`), runs the high-bit loop, and
appends the occupied slice to `buf`. -/
def write_vlq (buf : List Nat) (value : Nat) : Option (List Nat) :=
  (vlqGo (value / 128) 3 [0, 0, 0, value % 128]).map (fun bs => buf ++ bs)

/-- Continuation bytes (high bit set) of the minimal MIDI VLQ encoding:
the base-128 digits of `v`, most significant first, each with `0x80`
added. -/
def specVlqCont (v : Nat) : List Nat :=
  if h : v = 0 then [] else specVlqCont (v / 128) ++ [v % 128 + 128]
decreasing_by exact Nat.div_lt_self (Nat.pos_of_ne_zero h) (by decide)

/-- The MIDI variable-length-quantity encoding as the spec states it:
"7 bits per byte, high bit set on all but the last byte, big-endian
significance order". -/
def specVlq (v : Nat) : List Nat :=
  specVlqCont (v / 128) ++ [v % 128]

/-- Decoding a VLQ byte sequence: accumulate 7 bits per byte,
most-significant group first. -/
def vlqDecode (bs : List Nat) : Nat :=
  bs.foldl (fun a b => a * 128 + b % 128) 0

theorem vlqGo_eq_of_lt : ∀ (i v : Nat) (bytes : List Nat), v < 128 ^ i →
    i ≤ bytes.length →
    vlqGo v i bytes = some (specVlqCont v ++ bytes.drop i) := by
  intro i
  induction i with
  | zero =>
    intro v bytes hv _
    interval_cases v
    simp [vlqGo, specVlqCont]
  | succ i' ih =>
    intro v bytes hv hlen
    by_cases h0 : v = 0
    · subst h0
      simp [vlqGo, specVlqCont]
    · rw [vlqGo]
      simp only [h0, if_false]
      have hdiv : v / 128 < 128 ^ i' := by
        rw [Nat.div_lt_iff_lt_mul (by decide : 0 < 128)]
        calc v < 128 ^ (i' + 1) := hv
          _ = 128 ^ i' * 128 := by rw [Nat.pow_succ]
      have hlen' : i' ≤ (bytes.set i' (v % 128 + 128)).length := by
        rw [List.length_set]; omega
      rw [ih (v / 128) _ hdiv hlen']
      have hi : i' < bytes.length := by omega
      have hset : (bytes.set i' (v % 128 + 128)).drop i'
          = (v % 128 + 128) :: bytes.drop (i' + 1) := by
        rw [List.drop_set, if_neg (Nat.lt_irrefl i'), Nat.sub_self,
          List.drop_eq_getElem_cons hi, List.set_cons_zero]
      rw [hset]
      conv_rhs => rw [specVlqCont]
      simp [h0]

theorem vlqGo_none_of_ge : ∀ (i v : Nat) (bytes : List Nat), 128 ^ i ≤ v →
    vlqGo v i bytes = none := by
  intro i
  induction i with
  | zero =>
    intro v bytes hv
    rw [vlqGo]
    have : v ≠ 0 := by simpa using Nat.one_le_iff_ne_zero.mp hv
    simp [this]
  | succ i' ih =>
    intro v bytes hv
    have h0 : v ≠ 0 := by
      have : 0 < 128 ^ (i' + 1) := Nat.pos_pow_of_pos _ (by decide)
      omega
    rw [vlqGo]
    simp only [h0, if_false]
    apply ih
    rw [Nat.le_div_iff_mul_le (by decide : 0 < 128)]
    calc 128 ^ i' * 128 = 128 ^ (i' + 1) := (Nat.pow_succ ..).symm
      _ ≤ v := hv

theorem specVlqCont_decode (v : Nat) : ∀ a : Nat,
    List.foldl (fun a b => a * 128 + b % 128) a (specVlqCont v)
      = a * 128 ^ (specVlqCont v).length + v := by
  induction v using Nat.strong_induction_on with
  | _ v ih =>
    intro a
    by_cases h0 : v = 0
    · subst h0; rw [specVlqCont]; simp
    · rw [specVlqCont]
      simp only [h0, dif_neg, not_false_iff]
      rw [List.foldl_append,
        ih (v / 128) (Nat.div_lt_self (Nat.pos_of_ne_zero h0) (by decide))]
      simp only [List.foldl_cons, List.foldl_nil, List.length_append,
        List.length_singleton]
      have hm : (v % 128 + 128) % 128 = v % 128 := by omega
      rw [hm, Nat.pow_succ, Nat.add_mul, Nat.mul_assoc, Nat.add_assoc]
      congr 1
      omega

theorem specVlq_decodes (v : Nat) : vlqDecode (specVlq v) = v := by
  unfold vlqDecode specVlq
  rw [List.foldl_append, specVlqCont_decode (v / 128) 0]
  simp only [List.foldl_cons, List.foldl_nil, Nat.zero_mul, Nat.zero_add]
  omega

theorem write_vlq_eq_specVlq (buf : List Nat) (v : Nat) (h : v < 268435456) :
    write_vlq buf v = some (buf ++ specVlq v) := by
  unfold write_vlq
  have hv : v / 128 < 128 ^ 3 := by omega
  have hlen : 3 ≤ ([0, 0, 0, v % 128] : List Nat).length := by simp
  rw [vlqGo_eq_of_lt 3 (v / 128) _ hv hlen]
  rfl

theorem specVlqCont_high_bit (v : Nat) :
    ∀ b ∈ specVlqCont v, 128 ≤ b ∧ b < 256 := by
  induction v using Nat.strong_induction_on with
  | _ v ih =>
    intro b hb
    by_cases h0 : v = 0
    · subst h0; rw [specVlqCont] at hb; simp at hb
    · rw [specVlqCont] at hb
      simp only [h0, dif_neg, not_false_iff, List.mem_append,
        List.mem_singleton] at hb
      rcases hb with hb | hb
      · exact ih (v / 128) (Nat.div_lt_self (Nat.pos_of_ne_zero h0) (by decide)) b hb
      · subst hb
        constructor <;> omega

/-
════════════════════════════════════════════════════════════════════════
leap_spigot/src/player.rs — PlayerCommand, NoteEvent
════════════════════════════════════════════════════════════════════════
-/

/-- `PlayerCommand` from `leap_spigot/src/player.rs`. -/
inductive PlayerCommand where
  | play
  | stop
  | setInstrument (program : Nat)
  | setTempo (bpm : Nat)
  | quit
deriving DecidableEq

/-- `NoteEvent` from `leap_spigot/src/player.rs`: emitted by the player
for each note played, with the stream positions at the time of play. -/
structure NoteEvent where
  pitch : Nat
  duration : Nat
  velocity : Nat
  left_pos : Nat
  right_pos : Nat
deriving DecidableEq

/-
════════════════════════════════════════════════════════════════════════
leap_spigot/src/player.rs — the playback loop `player_thread`.

Wall-clock time and the MIDI port are outside a shallow embedding; the
loop's observable behaviour is captured as the sequence of actions one
iteration performs (command drain, program changes, sleeps, note on/off),
in the order the code performs them.  `pitch_map`/`duration_map` stand
for `PitchMap::note_for`/`DurationMap::ticks_for` as injected mapping
functions.
════════════════════════════════════════════════════════════════════════
-/

/-- Mutable state of `player_thread`: the private stream, instrument,
tempo and the playing flag. -/
structure PlayerState where
  stream : DualStream
  instrument : Nat
  tempo_bpm : Nat
  playing : Bool

/-- One observable action of a `player_thread` iteration, in program
order: `drain` marks the non-blocking command drain at the top of the
loop, `sleepMs` the in-note block-sleep, `gapSleep` the inter-note
gap. -/
inductive PAction where
  | drain
  | programChange (channel program : Nat)
  | idleSleep
  | noteSent (e : NoteEvent)
  | noteOn (channel pitch velocity : Nat)
  | sleepMs (ms : Nat)
  | noteOff (channel pitch : Nat)
  | gapSleep (ms : Nat)
deriving DecidableEq

/-- The command drain of `player_thread` (`loop { match cmd_rx.try_recv() }`):
Play sets the flag and re-emits the program change, Stop clears it,
SetInstrument/SetTempo update config (re-emitting the program change for
the instrument), Quit returns from the thread (`none`), dropping any
remaining queued commands. -/
def drainCommands (channel : Nat) :
    PlayerState → List PlayerCommand → Option PlayerState × List PAction
  | s, [] => (some s, [])
  | s, .play :: rest =>
    let r := drainCommands channel { s with playing := true } rest
    (r.1, .programChange channel s.instrument :: r.2)
  | s, .stop :: rest => drainCommands channel { s with playing := false } rest
  | s, .setInstrument p :: rest =>
    let r := drainCommands channel { s with instrument := p } rest
    (r.1, .programChange channel p :: r.2)
  | s, .setTempo b :: rest => drainCommands channel { s with tempo_bpm := b } rest
  | s, .quit :: _ => (none, [])

/-- One iteration of the `player_thread` loop (`leap_spigot/src/player.rs`
lines 215–264), with `cmds` the commands pending on the channel: drain
commands; if not playing, idle-sleep; otherwise pull `zip_next()` (clear
the flag on exhaustion), emit the NoteEvent (positions read after the
advance), note-on, block-sleep `ticks_to_ms(ticks, 480, tempo)`, note-off
and the gap sleep `max(millis/20, 5)`.  `none` is thread termination
(Quit). -/
def playerStep (channel velocity : Nat) (pitch_map duration_map : Nat → Nat)
    (s : PlayerState) (cmds : List PlayerCommand) :
    Option PlayerState × List PAction :=
  match drainCommands channel s cmds with
  | (none, dacts) => (none, PAction.drain :: dacts)
  | (some s1, dacts) =>
    if s1.playing then
      match s1.stream.zip_next with
      | none => (some { s1 with playing := false }, PAction.drain :: dacts)
      | some ((l, r), stream) =>
        let pitch := pitch_map r
        let ticks := duration_map l
        let millis := ticks_to_ms ticks 480 s1.tempo_bpm
        let gap := max (millis / 20) 5
        (some { s1 with stream := stream },
          PAction.drain :: dacts ++
            [PAction.noteSent ⟨pitch, ticks, velocity, stream.left_pos, stream.right_pos⟩,
             PAction.noteOn channel pitch velocity,
             PAction.sleepMs millis,
             PAction.noteOff channel pitch,
             PAction.gapSleep gap])
    else
      (some s1, PAction.drain :: dacts ++ [PAction.idleSleep])

/-- The action trace of running the player loop over a schedule of
pending-command batches (one batch per iteration), until the schedule
ends or Quit terminates the thread. -/
def playerRun (channel velocity : Nat) (pitch_map duration_map : Nat → Nat) :
    PlayerState → List (List PlayerCommand) → List PAction
  | _, [] => []
  | s, cmds :: rest =>
    match playerStep channel velocity pitch_map duration_map s cmds with
    | (none, acts) => acts
    | (some s1, acts) =>
      acts ++ playerRun channel velocity pitch_map duration_map s1 rest

theorem mem_of_getElem?_some {α : Type} {l : List α} {i : Nat} {a : α}
    (h : l[i]? = some a) : a ∈ l :=
  List.mem_iff_getElem?.mpr ⟨i, h⟩

theorem drainCommands_acts (channel : Nat) (cmds : List PlayerCommand) :
    ∀ (s : PlayerState) (a : PAction),
      a ∈ (drainCommands channel s cmds).2 →
      ∃ c p, a = PAction.programChange c p := by
  induction cmds with
  | nil => intro s a ha; simp [drainCommands] at ha
  | cons c rest ih =>
    intro s a ha
    cases c with
    | play =>
      simp only [drainCommands, List.mem_cons] at ha
      rcases ha with rfl | ha
      · exact ⟨_, _, rfl⟩
      · exact ih _ a ha
    | stop => exact ih _ a ha
    | setInstrument p =>
      simp only [drainCommands, List.mem_cons] at ha
      rcases ha with rfl | ha
      · exact ⟨_, _, rfl⟩
      · exact ih _ a ha
    | setTempo b => exact ih _ a ha
    | quit => simp [drainCommands] at ha

theorem playerStep_shape (channel velocity : Nat)
    (pitch_map duration_map : Nat → Nat)
    (s : PlayerState) (cmds : List PlayerCommand) :
    ∃ dacts tail,
      (playerStep channel velocity pitch_map duration_map s cmds).2
          = (PAction.drain :: dacts) ++ tail ∧
      (∀ a ∈ dacts, ∃ c p, a = PAction.programChange c p) ∧
      (tail = [] ∨ tail = [PAction.idleSleep] ∨
        ∃ e pitch millis,
          tail = [PAction.noteSent e,
                  PAction.noteOn channel pitch velocity,
                  PAction.sleepMs millis,
                  PAction.noteOff channel pitch,
                  PAction.gapSleep (max (millis / 20) 5)]) := by
  have hda := drainCommands_acts channel cmds s
  unfold playerStep
  rcases hdc : drainCommands channel s cmds with ⟨r, dacts⟩
  rw [hdc] at hda
  cases r with
  | none => exact ⟨dacts, [], by simp, fun a ha => hda a ha, Or.inl rfl⟩
  | some s1 =>
    by_cases hp : s1.playing
    · rcases hz : s1.stream.zip_next with _ | ⟨⟨l, rd⟩, stream⟩
      · exact ⟨dacts, [], by simp [hp, hz], fun a ha => hda a ha, Or.inl rfl⟩
      · refine ⟨dacts, _, by simp [hp, hz], fun a ha => hda a ha,
          Or.inr (Or.inr ⟨⟨pitch_map rd, duration_map l, velocity,
            stream.left_pos, stream.right_pos⟩, pitch_map rd,
            ticks_to_ms (duration_map l) 480 s1.tempo_bpm, rfl⟩)⟩
    · exact ⟨dacts, [PAction.idleSleep], by simp [hp],
        fun a ha => hda a ha, Or.inr (Or.inl rfl)⟩

theorem playerStep_drain_pos (channel velocity : Nat)
    (pitch_map duration_map : Nat → Nat)
    (s : PlayerState) (cmds : List PlayerCommand) (j : Nat)
    (hj : (playerStep channel velocity pitch_map duration_map s cmds).2[j]?
        = some PAction.drain) :
    j = 0 := by
  rcases playerStep_shape channel velocity pitch_map duration_map s cmds with
    ⟨dacts, tail, hacts, hd, ht⟩
  rw [hacts] at hj
  match j with
  | 0 => rfl
  | j' + 1 =>
    exfalso
    rw [List.cons_append, List.getElem?_cons_succ] at hj
    have hmem := mem_of_getElem?_some hj
    rcases List.mem_append.mp hmem with hm | hm
    · rcases hd _ hm with ⟨c, p, hcp⟩
      exact PAction.noConfusion hcp
    · rcases ht with rfl | rfl | ⟨e, pitch, millis, rfl⟩
      · simp at hm
      · simp at hm
      · simp at hm

theorem playerStep_noteOn_pos (channel velocity : Nat)
    (pitch_map duration_map : Nat → Nat)
    (s : PlayerState) (cmds : List PlayerCommand) (i p v : Nat)
    (hi : (playerStep channel velocity pitch_map duration_map s cmds).2[i]?
        = some (PAction.noteOn channel p v)) :
    2 ≤ i ∧
    i + 4 = (playerStep channel velocity pitch_map duration_map s cmds).2.length ∧
    ∃ millis,
      (playerStep channel velocity pitch_map duration_map s cmds).2[i + 1]?
          = some (PAction.sleepMs millis) ∧
      (playerStep channel velocity pitch_map duration_map s cmds).2[i + 2]?
          = some (PAction.noteOff channel p) ∧
      (playerStep channel velocity pitch_map duration_map s cmds).2[i + 3]?
          = some (PAction.gapSleep (max (millis / 20) 5)) := by
  rcases playerStep_shape channel velocity pitch_map duration_map s cmds with
    ⟨dacts, tail, hacts, hd, ht⟩
  rw [hacts] at hi ⊢
  set pre := PAction.drain :: dacts with hpre
  have hnotpre : ∀ a ∈ pre, ∀ c q w, a ≠ PAction.noteOn c q w := by
    intro a ha c q w
    rcases List.mem_cons.mp ha with rfl | ha
    · exact fun hcon => PAction.noConfusion hcon
    · rcases hd _ ha with ⟨c', p', rfl⟩
      exact fun hcon => PAction.noConfusion hcon
  have hge : pre.length ≤ i := by
    by_contra hlt
    push_neg at hlt
    rw [List.getElem?_append_left hlt] at hi
    exact hnotpre _ (mem_of_getElem?_some hi) channel p v rfl
  have hidx : tail[i - pre.length]? = some (PAction.noteOn channel p v) := by
    rw [List.getElem?_append_right hge] at hi
    exact hi
  rcases ht with rfl | rfl | ⟨e, pitch, millis, rfl⟩
  · simp at hidx
  · rw [List.getElem?_cons] at hidx
    split_ifs at hidx with h0
    · simp at hidx
    · simp at hidx
  · rw [List.getElem?_cons, List.getElem?_cons, List.getElem?_cons,
      List.getElem?_cons, List.getElem?_cons] at hidx
    split_ifs at hidx with h0 h1 h2 h3 h4 <;> simp at hidx
    rcases hidx with ⟨hpv, -⟩
    have hprelen : pre.length = dacts.length + 1 := by simp [hpre]
    have hk1 : i - pre.length = 1 := by omega
    have hieq : i = pre.length + 1 := by omega
    subst hpv
    refine ⟨by omega, ?_, millis, ?_, ?_, ?_⟩
    · simp only [List.length_append, List.length_cons, List.length_nil]
      omega
    · rw [List.getElem?_append_right (by omega : pre.length ≤ i + 1)]
      have : i + 1 - pre.length = 2 := by omega
      rw [this]; rfl
    · rw [List.getElem?_append_right (by omega : pre.length ≤ i + 2)]
      have : i + 2 - pre.length = 3 := by omega
      rw [this]; rfl
    · rw [List.getElem?_append_right (by omega : pre.length ≤ i + 3)]
      have : i + 3 - pre.length = 4 := by omega
      rw [this]; rfl

/-
════════════════════════════════════════════════════════════════════════
leap_spigot/src/ribbon.rs
════════════════════════════════════════════════════════════════════════
-/

/-- `Patch` from `leap_spigot/src/ribbon.rs`: digit, ARGB color, and the
0-based stream position of the digit. -/
structure Patch where
  digit : Nat
  color : Nat
  position : Nat
deriving DecidableEq

/-- `RibbonState` from `leap_spigot/src/ribbon.rs`.  The two `f32` scroll
fields are modelled exactly in `ℚ` (the claims do not depend on them). -/
structure RibbonState where
  patches : List Patch
  capacity : Nat
  base : Nat
  scroll_px : ℚ
  scroll_vel : ℚ
  label : String

/-- `RibbonState::push`: "Push a new digit onto the right end of the
ribbon (oldest falls off left)" — `if len >= capacity { remove(0) }` then
append.  `digit_color` (the f32 HSV→ARGB palette of ribbon.rs, whose
exact values no claim depends on) is passed in as an abstract
function. -/
def RibbonState.push (r : RibbonState) (digit_color : Nat → Nat → Nat)
    (digit position : Nat) : RibbonState :=
  let kept := if r.capacity ≤ r.patches.length then r.patches.drop 1 else r.patches
  { r with patches := kept ++ [⟨digit, digit_color digit r.base, position⟩] }

/-- `RibbonState::kick`: `scroll_vel = (velocity * 12.0).min(18.0)`. -/
def RibbonState.kick (r : RibbonState) (velocity : ℚ) : RibbonState :=
  { r with scroll_vel := min (velocity * 12) 18 }

/-- `StitchPhase` from `leap_spigot/src/ribbon.rs` (progress is `f32` in
the source, advanced in 0.05 steps; modelled in `ℚ`). -/
inductive StitchPhase where
  | unstitched
  | stitching (progress : ℚ)
  | stitched
  | unstitching (progress : ℚ)
deriving DecidableEq

/-- `TrayEntry` from `leap_spigot/src/ribbon.rs`. -/
structure TrayEntry where
  name : String
  patches : List (Patch × Patch)
  slide_in : ℚ
deriving DecidableEq

/-- `SnippetTray` from `leap_spigot/src/ribbon.rs`. -/
structure SnippetTray where
  entries : List TrayEntry
deriving DecidableEq

/-- `SnippetTray::deposit`: push the new entry, then
`if entries.len() > 8 { entries.remove(0) }`. -/
def SnippetTray.deposit (t : SnippetTray) (name : String)
    (pairs : List (Patch × Patch)) : SnippetTray :=
  let entries := t.entries ++ [⟨name, pairs, 0⟩]
  ⟨if 8 < entries.length then entries.drop 1 else entries⟩

/-- `ScissorAnimation` from `leap_spigot/src/ribbon.rs` (progress `f32`
modelled in `ℚ`). -/
structure ScissorAnimation where
  progress : ℚ
  start_patch : Nat
  count : Nat

/-- `ScissorAnimation::new`. -/
def ScissorAnimation.new (start_patch count : Nat) : ScissorAnimation :=
  ⟨0, start_patch, count⟩

/-
════════════════════════════════════════════════════════════════════════
leap_spigot/src/app.rs — AppState and the gesture state machine
════════════════════════════════════════════════════════════════════════
-/

/-- `PlayState` from `leap_spigot/src/app.rs`. -/
inductive PlayState where
  | stopped
  | playing
deriving DecidableEq

/-- `GestureEvent` from `leap_spigot/src/gesture.rs` (velocities are
`f32` in the source, modelled in `ℚ`). -/
inductive GestureEvent where
  | pullLeft (steps : Nat) (velocity : ℚ)
  | pullRight (steps : Nat) (velocity : ℚ)
  | twist
  | clap
  | unclap
  | scissors (name : String)
  | quit

/-- `AppState` from `leap_spigot/src/app.rs`, trimmed to the fields the
claims are about.  The `Player` handle is replaced by the list `sent` of
commands sent over its control channel, and the cosmetic `status` string
is omitted. -/
structure AppState where
  dual : DualStream
  left_ribbon : RibbonState
  right_ribbon : RibbonState
  play_state : PlayState
  stitch : StitchPhase
  tray : SnippetTray
  scissor_anim : Option ScissorAnimation
  snip_start : Nat
  note_highlight : Option Nat
  sent : List PlayerCommand

/-- One iteration of the `PullLeft` loop body in `handle_gesture`:
`if let Some(d) = self.dual.left().next() { push(d, left_pos()) }`
(the position is read after the advance). -/
def pullLeftOnce (digit_color : Nat → Nat → Nat) (s : AppState) : AppState :=
  match s.dual.left.next with
  | (some d, c) =>
    let dual := { s.dual with left := c }
    { s with dual,
             left_ribbon := s.left_ribbon.push digit_color d dual.left_pos }
  | (none, c) => { s with dual := { s.dual with left := c } }

/-- One iteration of the `PullRight` loop body in `handle_gesture`. -/
def pullRightOnce (digit_color : Nat → Nat → Nat) (s : AppState) : AppState :=
  match s.dual.right.next with
  | (some d, c) =>
    let dual := { s.dual with right := c }
    { s with dual,
             right_ribbon := s.right_ribbon.push digit_color d dual.right_pos }
  | (none, c) => { s with dual := { s.dual with right := c } }

/-- `AppState::do_snip` from `leap_spigot/src/app.rs`: snip the trailing
window `[left_pos − visible, left_pos)` (saturating), deposit the visible
patch pairs into the tray, and start a scissor animation. -/
def AppState.do_snip (s : AppState) (name : String) : AppState :=
  let fromPos := s.dual.left_pos - s.left_ribbon.patches.length
  let toPos := s.dual.left_pos
  let count := toPos - fromPos
  let dual := s.dual.snip name fromPos toPos
  let pairs := s.left_ribbon.patches.zip s.right_ribbon.patches
  { s with dual,
           tray := s.tray.deposit name pairs,
           scissor_anim := some (ScissorAnimation.new 0 (min count s.left_ribbon.capacity)) }

/-- `AppState::handle_gesture` from `leap_spigot/src/app.rs`. -/
def AppState.handle_gesture (digit_color : Nat → Nat → Nat) (s : AppState) :
    GestureEvent → AppState
  | .pullLeft steps velocity =>
    let s := (List.range steps).foldl (fun st _ => pullLeftOnce digit_color st) s
    { s with left_ribbon := s.left_ribbon.kick velocity }
  | .pullRight steps velocity =>
    let s := (List.range steps).foldl (fun st _ => pullRightOnce digit_color st) s
    { s with right_ribbon := s.right_ribbon.kick velocity }
  | .twist =>
    let dual := s.dual.twist
    let ll := dual.left.config.name ++ " base " ++ toString dual.left.config.base
    let rl := dual.right.config.name ++ " base " ++ toString dual.right.config.base
    { s with dual,
             left_ribbon := { s.right_ribbon with label := ll },
             right_ribbon := { s.left_ribbon with label := rl } }
  | .clap =>
    if s.play_state = .stopped then
      { s with play_state := .playing,
               stitch := .stitching 0,
               sent := s.sent ++ [.play] }
    else s
  | .unclap =>
    if s.play_state = .playing then
      { s with play_state := .stopped,
               stitch := .unstitching 0,
               sent := s.sent ++ [.stop] }
    else s
  | .scissors name => s.do_snip name
  | .quit => s

/-- The note-event drain at the end of `AppState::tick`
(`leap_spigot/src/app.rs`): for the most recent drained `NoteEvent`, the
highlight becomes the first left-ribbon patch index with
`p.position + 1 >= last.left_pos`; with no drained note it is kept. -/
def tick_note_highlight (patches : List Patch) (notes : List NoteEvent)
    (old : Option Nat) : Option Nat :=
  match notes.getLast? with
  | some last => patches.findIdx? (fun p => last.left_pos ≤ p.position + 1)
  | none => old

/-- The highlight rule as the claim states it: the first visible patch
whose absolute position is ≥ the note's left-position snapshot. -/
def claimNoteHighlight (patches : List Patch) (notes : List NoteEvent)
    (old : Option Nat) : Option Nat :=
  match notes.getLast? with
  | some last => patches.findIdx? (fun p => last.left_pos ≤ p.position)
  | none => old

/-
════════════════════════════════════════════════════════════════════════
spigot_midi/src/lib.rs — MidiTrack serialisation
════════════════════════════════════════════════════════════════════════
-/

/-- `Note` from `spigot_midi/src/lib.rs`: pitch, duration in ticks,
velocity. -/
structure Note where
  pitch : Nat
  duration : Nat
  velocity : Nat
deriving DecidableEq

/-- `MidiTrack` from `spigot_midi/src/lib.rs`.  `description` is the
UTF-8 byte sequence of the Rust `String` field. -/
structure MidiTrack where
  notes : List Note
  ticks_per_quarter : Nat
  tempo_bpm : Nat
  instrument : Nat
  channel : Nat
  description : List Nat

/-- Big-endian bytes of a `u16` (`to_be_bytes`). -/
def u16_be (n : Nat) : List Nat := [n / 256 % 256, n % 256]

/-- Big-endian bytes of a `u32` (`to_be_bytes`). -/
def u32_be (n : Nat) : List Nat :=
  [n / 16777216 % 256, n / 65536 % 256, n / 256 % 256, n % 256]

/-- The per-note loop of `build_track_chunk`: for each note push
`0x00, 0x90|ch, pitch, velocity`, then the duration as a VLQ, then
`0x80|ch, pitch, 0x00`, threading the accumulated track bytes. -/
def notesBytes (ch : Nat) : List Nat → List Note → Option (List Nat)
  | t, [] => some t
  | t, note :: rest =>
    match write_vlq (t ++ [0x00, 0x90 + ch, note.pitch, note.velocity])
        note.duration with
    | none => none
    | some t1 => notesBytes ch (t1 ++ [0x80 + ch, note.pitch, 0x00]) rest

/-- `MidiTrack::build_track_chunk` from `spigot_midi/src/lib.rs`: tempo
meta-event (`0x00 FF 51 03` + 3 bytes of `60_000_000 / tempo_bpm`, a
division that panics on a zero tempo — modelled `none`), track-name
meta-event (`0x00 FF 03` + VLQ length + bytes), program change
(`0x00, 0xC0|ch, instrument`), the note events, end-of-track
(`0x00 FF 2F 00`). -/
def MidiTrack.build_track_chunk (tr : MidiTrack) : Option (List Nat) :=
  if tr.tempo_bpm = 0 then none
  else
    let ch := tr.channel % 16
    let micros := 60000000 / tr.tempo_bpm
    let t : List Nat := [0x00, 0xFF, 0x51, 0x03,
      micros / 65536 % 256, micros / 256 % 256, micros % 256]
    let t := t ++ [0x00, 0xFF, 0x03]
    match write_vlq t tr.description.length with
    | none => none
    | some t1 =>
      let t2 := t1 ++ tr.description
      let t3 := t2 ++ [0x00, 0xC0 + ch, tr.instrument]
      match notesBytes ch t3 tr.notes with
      | none => none
      | some t4 => some (t4 ++ [0x00, 0xFF, 0x2F, 0x00])

/-- `MidiTrack::to_bytes` from `spigot_midi/src/lib.rs`: `"MThd"`,
`6u32` big-endian, format `0u16`, `1u16` track, the ticks-per-quarter,
then `"MTrk"`, the payload length big-endian, and the payload. -/
def MidiTrack.to_bytes (tr : MidiTrack) : Option (List Nat) :=
  match tr.build_track_chunk with
  | none => none
  | some track =>
    some ([0x4D, 0x54, 0x68, 0x64] ++ u32_be 6
      ++ u16_be 0 ++ u16_be 1 ++ u16_be tr.ticks_per_quarter
      ++ [0x4D, 0x54, 0x72, 0x6B] ++ u32_be track.length ++ track)

/-- One note's events as the spec (§6) states them: a note-on
`9<ch> pitch velocity` at delta-time 0, then a note-off `8<ch> pitch 00`
at a delta-time equal to the duration in ticks as a VLQ. -/
def specNoteBlock (channel : Nat) (note : Note) : List Nat :=
  [0x00, 0x90 + channel, note.pitch, note.velocity]
    ++ specVlq note.duration ++ [0x80 + channel, note.pitch, 0x00]

/-- The track payload as the spec (§6) states it: a tempo meta-event
(`FF 51 03` + 3-byte big-endian 60,000,000/BPM), a track-name meta-event
(`FF 03` + VLQ length + UTF-8 bytes), a program-change
(`C<channel> <program>`), the note events, terminated by an end-of-track
meta-event (`FF 2F 00`) — each event preceded by its delta time, zero
where the spec leaves it unstated. -/
def specTrackPayload (tr : MidiTrack) : List Nat :=
  let micros := 60000000 / tr.tempo_bpm
  [0x00, 0xFF, 0x51, 0x03,
    micros / 65536 % 256, micros / 256 % 256, micros % 256]
    ++ [0x00, 0xFF, 0x03] ++ specVlq tr.description.length ++ tr.description
    ++ [0x00, 0xC0 + tr.channel, tr.instrument]
    ++ (tr.notes.map (specNoteBlock tr.channel)).flatten
    ++ [0x00, 0xFF, 0x2F, 0x00]

/-- The whole MIDI Type-0 file as the spec (§6) states it: `"MThd"`,
4-byte big-endian length 6, 2-byte format (0 = single track), 2-byte
track count (1), 2-byte ticks-per-quarter, then an `"MTrk"` chunk with
4-byte big-endian payload length and the payload. -/
def specMidiFile (tr : MidiTrack) : List Nat :=
  [0x4D, 0x54, 0x68, 0x64] ++ u32_be 6 ++ u16_be 0 ++ u16_be 1
    ++ u16_be tr.ticks_per_quarter
    ++ [0x4D, 0x54, 0x72, 0x6B] ++ u32_be (specTrackPayload tr).length
    ++ specTrackPayload tr

theorem notesBytes_eq (ch : Nat) (notes : List Note)
    (h : ∀ n ∈ notes, n.duration < 268435456) :
    ∀ t : List Nat, notesBytes ch t notes
      = some (t ++ (notes.map (specNoteBlock ch)).flatten) := by
  induction notes with
  | nil => intro t; simp [notesBytes]
  | cons n rest ih =>
    intro t
    have hn : n.duration < 268435456 := h n (by simp)
    have hw := write_vlq_eq_specVlq
      (t ++ [0x00, 0x90 + ch, n.pitch, n.velocity]) n.duration hn
    have hrest := ih (fun m hm => h m (by simp [hm]))
    simp only [notesBytes, hw, hrest]
    simp [specNoteBlock, List.append_assoc]

/-
════════════════════════════════════════════════════════════════════════
Claims C1, C3, C4, C6, C7, C9, C10
════════════════════════════════════════════════════════════════════════
-/

/-- C1: for every DualStream and all arguments `name`, `from ≤ to`,
`snip(name, from, to)` does not touch the live Left/Right cursors:
`left_pos()`/`right_pos()` (indeed the whole cursors) are unchanged, and
this persists across any sequence of repeated snips at different
ranges. -/
theorem snip_preserves_live_cursors (ds : DualStream) (name : String)
    (fromPos toPos : Nat) (h : fromPos ≤ toPos) :
    ((ds.snip name fromPos toPos).left = ds.left ∧
      (ds.snip name fromPos toPos).right = ds.right ∧
      (ds.snip name fromPos toPos).left_pos = ds.left_pos ∧
      (ds.snip name fromPos toPos).right_pos = ds.right_pos) ∧
    ∀ reqs : List (String × Nat × Nat),
      (reqs.foldl (fun d r => d.snip r.1 r.2.1 r.2.2) ds).left_pos
          = ds.left_pos ∧
      (reqs.foldl (fun d r => d.snip r.1 r.2.1 r.2.2) ds).right_pos
          = ds.right_pos := by
  refine ⟨⟨rfl, rfl, rfl, rfl⟩, ?_⟩
  intro reqs
  induction reqs generalizing ds with
  | nil => exact ⟨rfl, rfl⟩
  | cons r rest ih =>
    simpa [List.foldl, DualStream.snip, DualStream.left_pos,
      DualStream.right_pos] using ih (ds.snip r.1 r.2.1 r.2.2)

/-- Witness for C1 at a concrete dual stream and range. -/
theorem snip_preserves_live_cursors_witness :
    (((DualStream.mk
        (Cursor.mk (SpigotConfig.mk "pi" 10 (fun _ => some 3)) 7)
        (Cursor.mk (SpigotConfig.mk "e" 10 (fun _ => some 2)) 4)
        []).snip "s" 2 5).left_pos = 7) := by
  have h := snip_preserves_live_cursors
    (DualStream.mk
      (Cursor.mk (SpigotConfig.mk "pi" 10 (fun _ => some 3)) 7)
      (Cursor.mk (SpigotConfig.mk "e" 10 (fun _ => some 2)) 4)
      []) "s" 2 5 (by decide)
  exact h.1.2.2.1

/-- C3: `ticks_to_ms(ticks, tpq, bpm)` equals
`ticks × (60000 / bpm) / tpq` floored at a minimum of 50 ms (for the
meaningful inputs `bpm ≥ 1`, `tpq ≥ 1`; the code's `.max(1)` guards make
the divisor expressions coincide there), and in particular
`ticks_to_ms 480 480 120 = 500` and `ticks_to_ms 1 480 120 = 50`. -/
theorem ticks_to_ms_formula :
    (∀ ticks tpq bpm : Nat, 1 ≤ bpm → 1 ≤ tpq →
      ticks_to_ms ticks tpq bpm = max 50 (ticks * (60000 / bpm) / tpq)) ∧
    ticks_to_ms 480 480 120 = 500 ∧ ticks_to_ms 1 480 120 = 50 := by
  refine ⟨?_, by decide, by decide⟩
  intro ticks tpq bpm hb hq
  unfold ticks_to_ms
  rw [Nat.max_eq_left hb, Nat.max_eq_left hq, Nat.max_comm]

/-- Witness for C3 at concrete inputs. -/
theorem ticks_to_ms_formula_witness :
    ticks_to_ms 240 480 120 = max 50 (240 * (60000 / 120) / 480) :=
  ticks_to_ms_formula.1 240 480 120 (by decide) (by decide)

/-- C6 counterexample: the claim quantifies over every `u32` value, but
for `value = 2^28 = 268435456` (five 7-bit groups) the 4-byte scratch
buffer runs out: the loop decrements `i` below zero, a `usize` underflow
that panics (modelled `none`), so no VLQ encoding is appended at all. -/
theorem write_vlq_u32_counterexample :
    ¬ ∃ bs : List Nat, write_vlq [] 268435456 = some bs ∧ vlqDecode bs = 268435456 := by
  have hnone : write_vlq [] 268435456 = none := by
    unfold write_vlq
    rw [vlqGo_none_of_ge 3 (268435456 / 128) _ (by decide)]
    rfl
  rintro ⟨bs, hbs, -⟩
  rw [hnone] at hbs
  exact Option.noConfusion hbs

/-- C6 (amended): for every value below `2^28` (the MIDI VLQ maximum;
larger values overrun the 4-byte buffer and panic), `write_vlq` appends
exactly the minimal MIDI variable-length-quantity encoding — 7 bits per
byte, high bit set on all but the last byte, most-significant group
first — and that encoding decodes back to the original value. -/
theorem write_vlq_correct_below_2_28 (buf : List Nat) (v : Nat)
    (h : v < 268435456) :
    write_vlq buf v = some (buf ++ specVlq v) ∧
    vlqDecode (specVlq v) = v ∧
    (∀ b ∈ (specVlq v).dropLast, 128 ≤ b ∧ b < 256) ∧
    (specVlq v).getLast? = some (v % 128) ∧ v % 128 < 128 := by
  refine ⟨write_vlq_eq_specVlq buf v h, specVlq_decodes v, ?_, ?_, by omega⟩
  · intro b hb
    rw [specVlq, List.dropLast_concat] at hb
    exact specVlqCont_high_bit (v / 128) b hb
  · rw [specVlq, List.getLast?_concat]

/-- Witness for the amended C6 at a concrete value. -/
theorem write_vlq_correct_below_2_28_witness :
    write_vlq [] 128 = some ([] ++ specVlq 128) ∧
    vlqDecode (specVlq 128) = 128 ∧
    (∀ b ∈ (specVlq 128).dropLast, 128 ≤ b ∧ b < 256) ∧
    (specVlq 128).getLast? = some (128 % 128) ∧ 128 % 128 < 128 :=
  write_vlq_correct_below_2_28 [] 128 (by decide)

/-- Sample data used by the concrete witnesses below. -/
def sampleConfig : SpigotConfig := ⟨"pi", 10, fun _ => some 3⟩

/-- Sample dual stream for witnesses. -/
def sampleStream : DualStream :=
  ⟨⟨sampleConfig, 0⟩, ⟨⟨"e", 10, fun _ => some 2⟩, 0⟩, []⟩

/-- Sample ribbon for witnesses. -/
def sampleRibbon : RibbonState := ⟨[⟨3, 0, 0⟩], 4, 10, 0, 0, "pi base 10"⟩

/-- Sample application state for witnesses. -/
def sampleApp : AppState :=
  ⟨sampleStream, sampleRibbon, sampleRibbon, .stopped, .unstitched,
    ⟨[]⟩, none, 0, none, []⟩

/-- C4: a Clap while Stopped sets PlayState to Playing, StitchPhase to
Stitching(progress = 0) and sends Play to the Player; a Clap while
Playing is a no-op; an Unclap while Playing sets PlayState to Stopped,
StitchPhase to Unstitching(progress = 0) and sends Stop; an Unclap while
Stopped is a no-op. -/
theorem clap_unclap_transitions (digit_color : Nat → Nat → Nat)
    (s : AppState) :
    (s.play_state = .stopped →
      s.handle_gesture digit_color .clap =
        { s with play_state := .playing, stitch := .stitching 0,
                 sent := s.sent ++ [.play] }) ∧
    (s.play_state = .playing →
      s.handle_gesture digit_color .clap = s) ∧
    (s.play_state = .playing →
      s.handle_gesture digit_color .unclap =
        { s with play_state := .stopped, stitch := .unstitching 0,
                 sent := s.sent ++ [.stop] }) ∧
    (s.play_state = .stopped →
      s.handle_gesture digit_color .unclap = s) := by
  refine ⟨?_, ?_, ?_, ?_⟩ <;> intro h <;>
    simp [AppState.handle_gesture, h]

/-- Witness for C4 at a concrete stopped state. -/
theorem clap_unclap_transitions_witness :
    sampleApp.handle_gesture (fun _ _ => 0) .clap =
      { sampleApp with play_state := .playing, stitch := .stitching 0,
                       sent := sampleApp.sent ++ [.play] } :=
  (clap_unclap_transitions (fun _ _ => 0) sampleApp).1 rfl

/-- C7 counterexample: with one visible patch at absolute position 4 and
a note whose left-position snapshot is 5, the code highlights that patch
(its predicate is `position + 1 ≥ left_pos`), while the claim's rule
(`position ≥ left_pos`) selects nothing. -/
theorem note_highlight_counterexample :
    tick_note_highlight [⟨7, 0, 4⟩] [⟨60, 480, 100, 5, 5⟩] none ≠
      claimNoteHighlight [⟨7, 0, 4⟩] [⟨60, 480, 100, 5, 5⟩] none := by
  decide

/-- C7 (amended): on each tick, if any NoteEvent was drained, the
highlight for the most recent one becomes the first visible left-ribbon
patch whose absolute position is ≥ the note's left-position snapshot
minus one (the code tests `position + 1 ≥ left_pos`); with no drained
note the previous highlight is kept. -/
theorem note_highlight_off_by_one (patches : List Patch)
    (notes : List NoteEvent) (old : Option Nat) :
    tick_note_highlight patches notes old =
      match notes.getLast? with
      | some last => patches.findIdx? (fun p => last.left_pos - 1 ≤ p.position)
      | none => old := by
  unfold tick_note_highlight
  cases hl : notes.getLast? with
  | none => rfl
  | some last =>
    simp only
    congr 1
    funext p
    exact decide_eq_decide.mpr (by omega)

/-- C9: every snip deposits exactly one new tray entry, named as given
and holding the visible patch pairs; the tray keeps at most 8 entries,
dropping the oldest (FIFO) when a ninth would appear. -/
theorem snip_tray_deposit_fifo (s : AppState) (name : String)
    (h : s.tray.entries.length ≤ 8) :
    (s.do_snip name).tray.entries.length ≤ 8 ∧
    (s.do_snip name).tray.entries =
      (if s.tray.entries.length = 8 then s.tray.entries.drop 1
       else s.tray.entries)
        ++ [⟨name, s.left_ribbon.patches.zip s.right_ribbon.patches, 0⟩] := by
  unfold AppState.do_snip SnippetTray.deposit
  by_cases h8 : s.tray.entries.length = 8
  · have hd : (s.tray.entries ++
        [(⟨name, s.left_ribbon.patches.zip s.right_ribbon.patches, 0⟩ :
          TrayEntry)]).drop 1
        = s.tray.entries.drop 1 ++
          [⟨name, s.left_ribbon.patches.zip s.right_ribbon.patches, 0⟩] :=
      List.drop_append_of_le_length (by omega)
    simp only [List.length_append, List.length_singleton, h8]
    simp [hd, h8]
  · have hle : ¬ 8 < s.tray.entries.length + 1 := by omega
    simp only [List.length_append, List.length_singleton]
    simp [hle, h8]
    omega

/-- Witness for C9 at a concrete state with an empty tray. -/
theorem snip_tray_deposit_fifo_witness :
    (sampleApp.do_snip "w").tray.entries.length ≤ 8 ∧
    (sampleApp.do_snip "w").tray.entries =
      (if sampleApp.tray.entries.length = 8 then sampleApp.tray.entries.drop 1
       else sampleApp.tray.entries)
        ++ [⟨"w",
             sampleApp.left_ribbon.patches.zip sampleApp.right_ribbon.patches,
             0⟩] :=
  snip_tray_deposit_fifo sampleApp "w" (by decide)

/-- C10: for a ribbon with capacity ≥ 1 whose patch list respects the
capacity, `push` keeps `patches.len() ≤ capacity`, removes the oldest
(leftmost) patch first exactly when the ribbon is full, and appends a
patch carrying the pushed digit and position at the right end. -/
theorem ribbon_push_capacity (digit_color : Nat → Nat → Nat)
    (r : RibbonState) (d pos : Nat) (hcap : 1 ≤ r.capacity)
    (hlen : r.patches.length ≤ r.capacity) :
    (r.push digit_color d pos).patches.length ≤ r.capacity ∧
    (r.push digit_color d pos).capacity = r.capacity ∧
    (r.push digit_color d pos).patches =
      (if r.patches.length = r.capacity then r.patches.drop 1 else r.patches)
        ++ [⟨d, digit_color d r.base, pos⟩] := by
  unfold RibbonState.push
  by_cases hfull : r.capacity ≤ r.patches.length
  · have he : r.patches.length = r.capacity := Nat.le_antisymm hlen hfull
    refine ⟨?_, rfl, ?_⟩
    · simp only [hfull, if_pos, List.length_append, List.length_drop,
        List.length_singleton]
      omega
    · simp [hfull, he]
  · have hne : r.patches.length ≠ r.capacity := by omega
    refine ⟨?_, rfl, ?_⟩
    · simp only [hfull, if_neg, not_false_iff, List.length_append,
        List.length_singleton]
      omega
    · simp [hfull, hne]

/-- Witness for C10 at a concrete ribbon. -/
theorem ribbon_push_capacity_witness :
    (sampleRibbon.push (fun _ _ => 0) 5 9).patches.length ≤
        sampleRibbon.capacity ∧
    (sampleRibbon.push (fun _ _ => 0) 5 9).capacity = sampleRibbon.capacity ∧
    (sampleRibbon.push (fun _ _ => 0) 5 9).patches =
      (if sampleRibbon.patches.length = sampleRibbon.capacity
       then sampleRibbon.patches.drop 1 else sampleRibbon.patches)
        ++ [⟨5, (fun _ _ => 0 : Nat → Nat → Nat) 5 sampleRibbon.base, 9⟩] :=
  ribbon_push_capacity (fun _ _ => 0) sampleRibbon 5 9 (by decide) (by decide)

/-- C2: in the player's action trace, every note-on is immediately
followed by its block-sleep, its matching note-off and the inter-note gap
sleep, and the command drain points all lie strictly before the note-on
or after the gap sleep: a Stop (or any command) arriving mid-note takes
effect only after the in-flight note completes, so responsiveness is
bounded by the note's duration plus gap. -/
theorem player_note_atomic_before_drain (channel velocity : Nat)
    (pitch_map duration_map : Nat → Nat) (s : PlayerState)
    (schedule : List (List PlayerCommand)) (i p v : Nat)
    (hnote : (playerRun channel velocity pitch_map duration_map s schedule)[i]?
        = some (PAction.noteOn channel p v)) :
    ∃ millis,
      (playerRun channel velocity pitch_map duration_map s schedule)[i + 1]?
          = some (PAction.sleepMs millis) ∧
      (playerRun channel velocity pitch_map duration_map s schedule)[i + 2]?
          = some (PAction.noteOff channel p) ∧
      (playerRun channel velocity pitch_map duration_map s schedule)[i + 3]?
          = some (PAction.gapSleep (max (millis / 20) 5)) ∧
      ∀ j, (playerRun channel velocity pitch_map duration_map s schedule)[j]?
          = some PAction.drain → j < i ∨ i + 4 ≤ j := by
  induction schedule generalizing s i with
  | nil => simp [playerRun] at hnote
  | cons cmds rest ih =>
    rcases hstep : playerStep channel velocity pitch_map duration_map s cmds
      with ⟨r, acts⟩
    have hstep2 : (playerStep channel velocity pitch_map duration_map s cmds).2
        = acts := by rw [hstep]
    have hactspos : 0 < acts.length := by
      rcases playerStep_shape channel velocity pitch_map duration_map s cmds
        with ⟨d, t, hacts, -, -⟩
      rw [hstep2] at hacts
      simp [hacts]
    cases r with
    | none =>
      have hrun : playerRun channel velocity pitch_map duration_map s
          (cmds :: rest) = acts := by
        rw [playerRun, hstep]
      rw [hrun] at hnote ⊢
      obtain ⟨h2i, hlen, millis, h1, h2, h3⟩ :=
        playerStep_noteOn_pos channel velocity pitch_map duration_map s cmds
          i p v (by rw [hstep2]; exact hnote)
      rw [hstep2] at hlen h1 h2 h3
      refine ⟨millis, h1, h2, h3, ?_⟩
      intro j hj
      have hj0 := playerStep_drain_pos channel velocity pitch_map duration_map
        s cmds j (by rw [hstep2]; exact hj)
      left; omega
    | some s1 =>
      have hrun : playerRun channel velocity pitch_map duration_map s
          (cmds :: rest) = acts ++
            playerRun channel velocity pitch_map duration_map s1 rest := by
        rw [playerRun, hstep]
      rw [hrun] at hnote ⊢
      by_cases hlt : i < acts.length
      · rw [List.getElem?_append_left hlt] at hnote
        obtain ⟨h2i, hlen, millis, h1, h2, h3⟩ :=
          playerStep_noteOn_pos channel velocity pitch_map duration_map s cmds
            i p v (by rw [hstep2]; exact hnote)
        rw [hstep2] at hlen h1 h2 h3
        refine ⟨millis, ?_, ?_, ?_, ?_⟩
        · rw [List.getElem?_append_left (by omega : i + 1 < acts.length)]
          exact h1
        · rw [List.getElem?_append_left (by omega : i + 2 < acts.length)]
          exact h2
        · rw [List.getElem?_append_left (by omega : i + 3 < acts.length)]
          exact h3
        · intro j hj
          by_cases hjl : j < acts.length
          · rw [List.getElem?_append_left hjl] at hj
            have hj0 := playerStep_drain_pos channel velocity pitch_map
              duration_map s cmds j (by rw [hstep2]; exact hj)
            left; omega
          · right; omega
      · push_neg at hlt
        rw [List.getElem?_append_right hlt] at hnote
        obtain ⟨millis, h1, h2, h3, hdr⟩ := ih s1 (i - acts.length) hnote
        refine ⟨millis, ?_, ?_, ?_, ?_⟩
        · rw [List.getElem?_append_right (by omega : acts.length ≤ i + 1),
            (by omega : i + 1 - acts.length = i - acts.length + 1)]
          exact h1
        · rw [List.getElem?_append_right (by omega : acts.length ≤ i + 2),
            (by omega : i + 2 - acts.length = i - acts.length + 2)]
          exact h2
        · rw [List.getElem?_append_right (by omega : acts.length ≤ i + 3),
            (by omega : i + 3 - acts.length = i - acts.length + 3)]
          exact h3
        · intro j hj
          by_cases hjl : j < acts.length
          · rw [List.getElem?_append_left hjl] at hj
            have hj0 := playerStep_drain_pos channel velocity pitch_map
              duration_map s cmds j (by rw [hstep2]; exact hj)
            left; omega
          · push_neg at hjl
            rw [List.getElem?_append_right hjl] at hj
            rcases hdr _ hj with hc | hc
            · left; omega
            · right; omega

/-- Witness for C2: a concrete run (Play, then one note) whose note-on at
index 3 is followed by sleep, note-off and gap sleep. -/
theorem player_note_atomic_before_drain_witness :
    ∃ millis,
      (playerRun 0 100 (fun r => 60 + r) (fun _ => 480)
          ⟨sampleStream, 0, 120, false⟩ [[PlayerCommand.play]])[3 + 1]?
          = some (PAction.sleepMs millis) ∧
      (playerRun 0 100 (fun r => 60 + r) (fun _ => 480)
          ⟨sampleStream, 0, 120, false⟩ [[PlayerCommand.play]])[3 + 2]?
          = some (PAction.noteOff 0 62) ∧
      (playerRun 0 100 (fun r => 60 + r) (fun _ => 480)
          ⟨sampleStream, 0, 120, false⟩ [[PlayerCommand.play]])[3 + 3]?
          = some (PAction.gapSleep (max (millis / 20) 5)) ∧
      ∀ j, (playerRun 0 100 (fun r => 60 + r) (fun _ => 480)
          ⟨sampleStream, 0, 120, false⟩ [[PlayerCommand.play]])[j]?
          = some PAction.drain → j < 3 ∨ 3 + 4 ≤ j :=
  player_note_atomic_before_drain 0 100 (fun r => 60 + r) (fun _ => 480)
    ⟨sampleStream, 0, 120, false⟩ [[PlayerCommand.play]] 3 62 100 (by rfl)

/-- C8: with the playing flag set and the private stream exhausted
(`zip_next()` returns no pair), one loop iteration just clears the
playing flag — no note action, no termination — and the next iteration
still processes commands (SetInstrument is applied; Quit terminates). -/
theorem player_stream_exhaustion_graceful (channel velocity : Nat)
    (pitch_map duration_map : Nat → Nat) (s : PlayerState)
    (hplay : s.playing = true) (hz : s.stream.zip_next = none) :
    playerStep channel velocity pitch_map duration_map s []
        = (some { s with playing := false }, [PAction.drain]) ∧
    (playerStep channel velocity pitch_map duration_map
        { s with playing := false } [PlayerCommand.setInstrument 7]).1
        = some { s with playing := false, instrument := 7 } ∧
    (playerStep channel velocity pitch_map duration_map
        { s with playing := false } [PlayerCommand.quit]).1 = none := by
  refine ⟨?_, rfl, rfl⟩
  unfold playerStep drainCommands
  simp [hplay, hz]

/-- C5: for every composed MidiTrack (meaningful tempo ≥ 1 BPM, channel
in 0–15, name length and note durations below the MIDI VLQ maximum
`2^28`), `to_bytes()` produces exactly the byte layout of §6: `"MThd"`,
big-endian length 6, format 0, track count 1, ticks-per-quarter, then an
`"MTrk"` chunk whose payload is the tempo meta-event, the track-name
meta-event, the program change, delta-0 note-ons each followed by the
matching note-off after a VLQ delta equal to the duration, and the
end-of-track meta-event. -/
theorem midi_to_bytes_layout (tr : MidiTrack)
    (htempo : 1 ≤ tr.tempo_bpm) (hch : tr.channel < 16)
    (hdesc : tr.description.length < 268435456)
    (hdur : ∀ n ∈ tr.notes, n.duration < 268435456) :
    tr.to_bytes = some (specMidiFile tr) := by
  have hmod : tr.channel % 16 = tr.channel := Nat.mod_eq_of_lt hch
  have hchunk : tr.build_track_chunk = some (specTrackPayload tr) := by
    have hw := write_vlq_eq_specVlq
      ([0x00, 0xFF, 0x51, 0x03,
        60000000 / tr.tempo_bpm / 65536 % 256,
        60000000 / tr.tempo_bpm / 256 % 256,
        60000000 / tr.tempo_bpm % 256] ++ [0x00, 0xFF, 0x03])
      tr.description.length hdesc
    have hrest := notesBytes_eq tr.channel tr.notes hdur
    unfold MidiTrack.build_track_chunk
    rw [if_neg (by omega : ¬ tr.tempo_bpm = 0)]
    simp only [hmod, hw, hrest]
    simp [specTrackPayload, List.append_assoc]
  unfold MidiTrack.to_bytes
  rw [hchunk]
  rfl

/-- Witness for C5 at a concrete one-note track. -/
theorem midi_to_bytes_layout_witness :
    (MidiTrack.mk [⟨64, 360, 100⟩] 480 120 0 0 [115, 112]).to_bytes
      = some (specMidiFile
          (MidiTrack.mk [⟨64, 360, 100⟩] 480 120 0 0 [115, 112])) :=
  midi_to_bytes_layout _ (by decide) (by decide) (by decide) (by decide)

/-- Dual stream whose two sources are exhausted from the start (the
defensive case of §7(c)). -/
def exhaustedStream : DualStream :=
  ⟨⟨⟨"x", 10, fun _ => none⟩, 0⟩, ⟨⟨"y", 10, fun _ => none⟩, 0⟩, []⟩

/-- Witness for C8 at a concrete exhausted stream. -/
theorem player_stream_exhaustion_graceful_witness :
    playerStep 0 100 id id ⟨exhaustedStream, 0, 120, true⟩ []
        = (some ⟨exhaustedStream, 0, 120, false⟩, [PAction.drain]) :=
  (player_stream_exhaustion_graceful 0 100 id id
    ⟨exhaustedStream, 0, 120, true⟩ rfl rfl).1

end Skeinrs
